import Mathlib

/-!
A shallow embedding of the maymun-lang interpreter front end and evaluator
(src/token, src/lexer, src/ast, src/parser, src/object, src/eval, src/repl),
together with theorems settling the specification claims.

Conventions of the embedding:
* Rust `i64` values are modelled as `Int`; `+ - *` and unary negation wrap
  to 64-bit two's complement (release-profile semantics), while `/` keeps the
  panicking behaviour of Rust division (divisor zero, or `i64::MIN / -1`).
* The lexer's token stream is modelled as the finite list of tokens produced
  before the first `Eof`; the parser reads `Eof` past the end of the list,
  mirroring the lexer's idempotent end-of-input behaviour.
* Rust panics (`unwrap` on `None`, division) and the parser's infinite
  skip-to-semicolon loops are explicit outcomes (`PFail`, `EPanic`) instead of
  process-level failures.
* The parser's recursion is driven by a fuel argument so that all definitions
  compute by `rfl`/`decide`; `parse_program` supplies fuel far above the
  recursion depth the token stream can reach, and no theorem below ever meets
  the fuel-exhaustion marker.
-/

/-- `Token` from src/token/mod.rs. Keyword constructors carry a `T` suffix
where the bare name is reserved or clashes in Lean. -/
inductive Token where
  | illegal
  | eof
  | ident (s : String)
  | int (i : Int)
  | assign
  | plus
  | minus
  | bang
  | asterisk
  | slash
  | lt
  | gt
  | eq
  | notEq
  | comma
  | semicolon
  | lparen
  | rparen
  | lbrace
  | rbrace
  | function
  | letT
  | trueT
  | falseT
  | ifT
  | elseT
  | returnT
deriving DecidableEq

/-- The derived Rust `Debug` rendering of a token (`{:?}`). -/
def tokenDebug : Token → String
  | .illegal => "Illegal"
  | .eof => "Eof"
  | .ident s => "Ident(\"" ++ s ++ "\")"
  | .int i => "Int(" ++ toString i ++ ")"
  | .assign => "Assign"
  | .plus => "Plus"
  | .minus => "Minus"
  | .bang => "Bang"
  | .asterisk => "Asterisk"
  | .slash => "Slash"
  | .lt => "Lt"
  | .gt => "Gt"
  | .eq => "Eq"
  | .notEq => "NotEq"
  | .comma => "Comma"
  | .semicolon => "Semicolon"
  | .lparen => "Lparen"
  | .rparen => "Rparen"
  | .lbrace => "Lbrace"
  | .rbrace => "Rbrace"
  | .function => "Function"
  | .letT => "Let"
  | .trueT => "True"
  | .falseT => "False"
  | .ifT => "If"
  | .elseT => "Else"
  | .returnT => "Return"

/-- `impl Display for Token`: operator symbols, falling back to `Debug`. -/
def tokenDisplay : Token → String
  | .assign => "="
  | .plus => "+"
  | .minus => "-"
  | .bang => "!"
  | .asterisk => "*"
  | .slash => "/"
  | .gt => ">"
  | .lt => "<"
  | .eq => "=="
  | .notEq => "!="
  | t => tokenDebug t

/-- `lookup_ident` from src/token/mod.rs. -/
def lookup_ident (s : String) : Token :=
  if s = "fn" then .function
  else if s = "let" then .letT
  else if s = "true" then .trueT
  else if s = "false" then .falseT
  else if s = "if" then .ifT
  else if s = "else" then .elseT
  else if s = "return" then .returnT
  else .ident s

/-- `char::is_ascii_whitespace` as used by `Lexer::skip_whitespace`. -/
def isWs (c : Char) : Bool :=
  c = ' ' || c = '\t' || c = '\n' || c = '\x0c' || c = '\r'

/-- `is_letter` from src/lexer/mod.rs. -/
def is_letter (c : Char) : Bool :=
  ('a' ≤ c && c ≤ 'z') || ('A' ≤ c && c ≤ 'Z') || c = '_'

/-- `is_digit` from src/lexer/mod.rs. -/
def is_digit (c : Char) : Bool :=
  '0' ≤ c && c ≤ '9'

/-- Maximal run of characters satisfying `p` (the self-advancing scan of
`read_identifier` / `read_number`), returning the run and the rest. -/
def spanChars (p : Char → Bool) : List Char → List Char × List Char
  | [] => ([], [])
  | c :: cs =>
    if p c then
      let r := spanChars p cs
      (c :: r.1, r.2)
    else ([], c :: cs)

/-- Numeric value of a digit run (the `str::parse::<i64>` input is a plain
digit string, so its value is this natural number). -/
def digitsVal : List Char → Nat → Nat
  | [], acc => acc
  | c :: cs, acc => digitsVal cs (acc * 10 + (c.toNat - '0'.toNat))

/-- The one lexical failure left unhandled by the source: `parse().unwrap()`
on an integer literal exceeding `i64::MAX` (src/lexer/mod.rs line 102). -/
inductive LexFail where
  | intOverflow
  | fuelShort
deriving DecidableEq

/-- Repeated `Lexer::next_token` over the remaining characters, collecting
tokens until end of input (a NUL behaves as end of input, as in `read_char`).
Fuel only bounds recursion depth; each step consumes at least one character,
so `cs.length + 1` is always enough. -/
def lexGo : Nat → List Char → Except LexFail (List Token)
  | 0, _ => .error .fuelShort
  | _ + 1, [] => .ok []
  | n + 1, c :: cs =>
    if isWs c then lexGo n cs
    else if c = '\x00' then .ok []
    else if c = '=' then
      match cs with
      | '=' :: cs2 => (lexGo n cs2).map (Token.eq :: ·)
      | _ => (lexGo n cs).map (Token.assign :: ·)
    else if c = '+' then (lexGo n cs).map (Token.plus :: ·)
    else if c = '-' then (lexGo n cs).map (Token.minus :: ·)
    else if c = '!' then
      match cs with
      | '=' :: cs2 => (lexGo n cs2).map (Token.notEq :: ·)
      | _ => (lexGo n cs).map (Token.bang :: ·)
    else if c = '*' then (lexGo n cs).map (Token.asterisk :: ·)
    else if c = '/' then (lexGo n cs).map (Token.slash :: ·)
    else if c = '<' then (lexGo n cs).map (Token.lt :: ·)
    else if c = '>' then (lexGo n cs).map (Token.gt :: ·)
    else if c = ',' then (lexGo n cs).map (Token.comma :: ·)
    else if c = ';' then (lexGo n cs).map (Token.semicolon :: ·)
    else if c = '(' then (lexGo n cs).map (Token.lparen :: ·)
    else if c = ')' then (lexGo n cs).map (Token.rparen :: ·)
    else if c = '{' then (lexGo n cs).map (Token.lbrace :: ·)
    else if c = '}' then (lexGo n cs).map (Token.rbrace :: ·)
    else if is_letter c then
      let r := spanChars is_letter (c :: cs)
      (lexGo n r.2).map (lookup_ident (String.mk r.1) :: ·)
    else if is_digit c then
      let r := spanChars is_digit (c :: cs)
      let v := digitsVal r.1 0
      if v ≤ 2 ^ 63 - 1 then (lexGo n r.2).map (Token.int (Int.ofNat v) :: ·)
      else .error .intOverflow
    else (lexGo n cs).map (Token.illegal :: ·)

/-- The full token sequence of a source line (everything the parser will pull
from `Lexer::new(input)` before hitting `Eof`). -/
def lexAll (s : String) : Except LexFail (List Token) :=
  lexGo (s.length + 1) s.toList

/-!  ## AST model (src/ast/mod.rs)

`Expression`, `Statement` and the statement sequence type (`BlockStatement` /
`Statements` / the payload of `Program` are all `Vec<Statement>` in the
source) are one mutual family so that the evaluator and the renderer can
recurse structurally.  Constructor names carry an `E`/`S`/`T` suffix where the
Rust variant name is reserved in Lean.  -/

mutual
inductive Expression where
  | literal (s : String)
  | intE (i : Int)
  | boolean (b : Bool)
  | prefixE (op : String) (right : Expression)
  | infixE (left : Expression) (op : String) (right : Expression)
  | ifE (cond : Expression) (conseq : Statements) (alter : Option Statements)
inductive Statement where
  | letS (name : String) (expr : Expression)
  | returnS (expr : Expression)
  | exprS (expr : Expression)
inductive Statements where
  | nil
  | cons (s : Statement) (tl : Statements)
end

/-- `Vec::push` at the end of a statement sequence. -/
def Statements.push : Statements → Statement → Statements
  | .nil, s => .cons s .nil
  | .cons t tl, s => .cons t (tl.push s)

/-- Concatenation of statement sequences (used to state that statements after
an early exit are never executed). -/
def Statements.append : Statements → Statements → Statements
  | .nil, q => q
  | .cons s tl, q => .cons s (tl.append q)

/-- `Program` from src/ast/mod.rs: a wrapper around the statement sequence. -/
abbrev Program := Statements

mutual
/-- `impl Display for Expression`. -/
def exprToString : Expression → String
  | .literal s => s
  | .intE i => toString i
  | .boolean b => cond b "true" "false"
  | .prefixE op r => "(" ++ op ++ exprToString r ++ ")"
  | .infixE l op r =>
    "(" ++ exprToString l ++ " " ++ op ++ " " ++ exprToString r ++ ")"
  | .ifE c conseq alter =>
    "if " ++ exprToString c ++ stmtsToString conseq ++
      (match alter with
       | none => ""
       | some alt => "else " ++ stmtsToString alt)
/-- `impl Display for Statement`.  Note the source renders `return` without a
trailing semicolon and `let` with one. -/
def stmtToString : Statement → String
  | .letS x e => "let " ++ x ++ " = " ++ exprToString e ++ ";"
  | .returnS e => "return " ++ exprToString e
  | .exprS e => exprToString e
/-- Separator-free concatenation used by `Display` for `Program` and for the
statement lists inside `if` rendering. -/
def stmtsToString : Statements → String
  | .nil => ""
  | .cons s tl => stmtToString s ++ stmtsToString tl
end

/-!  ## Runtime value model and Environment (src/object/mod.rs) -/

/-- `Object` from src/object/mod.rs: the runtime value, including the two
control signals (`Return`, `Error`). -/
inductive Object where
  | integer (i : Int)
  | boolean (b : Bool)
  | null
  | ret (o : Object)
  | error (msg : String)
deriving DecidableEq

/-- `impl Display for Object`: every variant is rendered inside its
constructor name, e.g. `Integer(5)`, `Boolean(true)`, `Null`, `Error(msg)`. -/
def objDisplay : Object → String
  | .integer i => "Integer(" ++ toString i ++ ")"
  | .boolean b => "Boolean(" ++ cond b "true" "false" ++ ")"
  | .null => "Null"
  | .ret o => "Return(" ++ objDisplay o ++ ")"
  | .error msg => "Error(" ++ msg ++ ")"

/-- `Environment = HashMap<String, Object>` observed through `get`/`insert`:
modelled as an association list where `insert` prepends (lookup sees the
newest binding, matching the map's replace-on-insert). -/
abbrev Environment := List (String × Object)

/-- `HashMap::get`. -/
def envGet (env : Environment) (k : String) : Option Object :=
  match env with
  | [] => none
  | (x, v) :: rest => if x = k then some v else envGet rest k

/-- `HashMap::insert`. -/
def envInsert (k : String) (v : Object) (env : Environment) : Environment :=
  (k, v) :: env

/-!  ## Evaluator (src/eval/mod.rs)

The Rust evaluator threads `&mut Environment` everywhere, but the only
mutation in the whole module is `env.insert` in the `Statement::Let` arm of
`eval_program` (line 25); `eval_expression` and `eval_block_statements` only
read the environment (blocks skip `let` via the `_ => {}` arm).  They are
therefore embedded as environment-reading functions, and only the
program-level statement walk returns an updated environment.  -/

/-- The evaluation panics the source leaves unrecovered: integer division
(`li / ri` with `ri == 0`, or the overflowing `i64::MIN / -1`), and the
`eval_block_statements(..).unwrap()` calls in the `Expression::If` arm when
the chosen block produced no value. -/
inductive EPanic where
  | divByZero
  | divOverflow
  | unwrapNone
deriving DecidableEq

/-- Two's-complement wrap-around of Rust release-profile `i64` arithmetic. -/
def wrap64 (z : Int) : Int := (z + 2 ^ 63) % 2 ^ 64 - 2 ^ 63

/-- Models the `.unwrap()` on the `Option<Object>` a block evaluation
returns (src/eval/mod.rs lines 151/154/162/167). -/
def unwrapBlock : Except EPanic (Option Object) → Except EPanic Object
  | .error p => .error p
  | .ok none => .error .unwrapNone
  | .ok (some o) => .ok o

/-- The operator dispatch of the `Expression::Prefix` arm
(src/eval/mod.rs lines 86-100), after the error-signal short-circuit. -/
def evalPrefixOp (op : String) (r : Object) : Object :=
  if op = "!" then
    match r with
    | .boolean b => .boolean (!b)
    | .integer i => .boolean (decide (i = 0))
    | _ => .error ("unknown prefix type: " ++ objDisplay r)
  else if op = "-" then
    match r with
    | .integer i => .integer (wrap64 (-i))
    | _ => .error ("unknown operator: -" ++ objDisplay r)
  else .error ("unknown operator: " ++ op ++ objDisplay r)

/-- The operator dispatch of the `Expression::Infix` arm
(src/eval/mod.rs lines 113-139), after the error-signal short-circuits.
Division keeps Rust panic behaviour, so the result is an `Except`. -/
def evalInfixOp (op : String) (lv rv : Object) : Except EPanic Object :=
  match lv, rv with
  | .integer li, .integer ri =>
    if op = "+" then .ok (.integer (wrap64 (li + ri)))
    else if op = "-" then .ok (.integer (wrap64 (li - ri)))
    else if op = "*" then .ok (.integer (wrap64 (li * ri)))
    else if op = "/" then
      if ri = 0 then .error .divByZero
      else if li = -(2 ^ 63) ∧ ri = -1 then .error .divOverflow
      else .ok (.integer (Int.tdiv li ri))
    else if op = "<" then .ok (.boolean (decide (li < ri)))
    else if op = ">" then .ok (.boolean (decide (ri < li)))
    else if op = "==" then .ok (.boolean (decide (li = ri)))
    else if op = "!=" then .ok (.boolean (!decide (li = ri)))
    else
      .ok (.error ("unknown operator: " ++ objDisplay lv ++ " " ++ op ++
        " " ++ objDisplay rv))
  | _, _ =>
    if op = "==" then .ok (.boolean (decide (lv = rv)))
    else if op = "!=" then .ok (.boolean (!decide (lv = rv)))
    else
      .ok (.error ("mismatch expression operation: " ++ objDisplay lv ++
        " " ++ op ++ " " ++ objDisplay rv))

mutual
/-- `eval_expression` from src/eval/mod.rs. -/
def eval_expression : Expression → Environment → Except EPanic Object
  | .intE i, _ => .ok (.integer i)
  | .boolean b, _ => .ok (.boolean b)
  | .literal l, env =>
    match envGet env l with
    | some o => .ok o
    | none => .ok (.error ("identifier not found: " ++ l))
  | .prefixE op right, env =>
    match eval_expression right env with
    | .error p => .error p
    | .ok r =>
      match r with
      | .error msg => .ok (.error msg)
      | _ => .ok (evalPrefixOp op r)
  | .infixE l op r, env =>
    match eval_expression l env with
    | .error p => .error p
    | .ok lv =>
      match lv with
      | .error msg => .ok (.error msg)
      | _ =>
        match eval_expression r env with
        | .error p => .error p
        | .ok rv =>
          match rv with
          | .error msg => .ok (.error msg)
          | _ => evalInfixOp op lv rv
  | .ifE c conseq alter, env =>
    match eval_expression c env with
    | .error p => .error p
    | .ok cv =>
      match cv with
      | .error msg => .ok (.error msg)
      | .boolean b =>
        if b then unwrapBlock (eval_block_statements conseq env none)
        else
          match alter with
          | some alt => unwrapBlock (eval_block_statements alt env none)
          | none => .ok .null
      | .null =>
        match alter with
        | some alt => unwrapBlock (eval_block_statements alt env none)
        | none => .ok .null
      | _ => unwrapBlock (eval_block_statements conseq env none)
/-- `eval_block_statements` from src/eval/mod.rs, with the running `result`
made an explicit argument (`none` initially).  `let` statements fall into the
source's `_ => {}` arm: they are skipped outright. -/
def eval_block_statements :
    Statements → Environment → Option Object → Except EPanic (Option Object)
  | .nil, _, result => .ok result
  | .cons s tl, env, result =>
    match s with
    | .exprS e =>
      match eval_expression e env with
      | .error p => .error p
      | .ok (.ret o) => .ok (some o)
      | .ok (.error msg) => .ok (some (.error msg))
      | .ok v => eval_block_statements tl env (some v)
    | .returnS e =>
      match eval_expression e env with
      | .error p => .error p
      | .ok (.error msg) => .ok (some (.error msg))
      | .ok v => .ok (some (.ret v))
    | .letS _ _ => eval_block_statements tl env result
end

/-- Outcome of the program-level statement walk: either the loop ran off the
end of the statement list with a running `result`, or an early `return`
(src/eval/mod.rs lines 12, 13, 22, 29) stopped it with a value.  The
environment reached at that point is carried alongside. -/
inductive ProgOut where
  | finished (result : Option Object) (env : Environment)
  | stopped (value : Object) (env : Environment)

/-- The statement loop of `eval_program` (src/eval/mod.rs lines 5-32), with
the running `result` explicit. -/
def evalStmts :
    Statements → Environment → Option Object → Except EPanic ProgOut
  | .nil, env, result => .ok (.finished result env)
  | .cons s tl, env, _ =>
    match s with
    | .exprS e =>
      match eval_expression e env with
      | .error p => .error p
      | .ok (.ret o) => .ok (.stopped o env)
      | .ok (.error msg) => .ok (.stopped (.error msg) env)
      | .ok v => evalStmts tl env (some v)
    | .letS x e =>
      match eval_expression e env with
      | .error p => .error p
      | .ok (.error msg) => .ok (.stopped (.error msg) env)
      | .ok v => evalStmts tl (envInsert x v env) none
    | .returnS e =>
      match eval_expression e env with
      | .error p => .error p
      | .ok v => .ok (.stopped v env)

/-- `eval_program` from src/eval/mod.rs: the final `Option<Object>` paired
with the environment as left by the run. -/
def eval_program (p : Program) (env : Environment) :
    Except EPanic (Option Object × Environment) :=
  match evalStmts p env none with
  | .error pa => .error pa
  | .ok (.finished r e) => .ok (r, e)
  | .ok (.stopped v e) => .ok (some v, e)

/-!  ## Parser (src/parser/mod.rs)

The parser state (`cur_token`, `peek_token`, the rest of the lexer) is
modelled as the list of tokens not yet consumed: `cur_token` is the head,
`peek_token` the second element, and the lexer supplies `Eof` beyond the end
of the list forever, exactly as `Lexer::next_token` does.  Accumulated
diagnostics are threaded through and returned.

Two behaviours of the source have no value-level result and are explicit
outcomes:
* `panicked` — the `.unwrap()` calls on `parse_expression` results
  (src/parser/mod.rs lines 76, 120, 131, 140, 189) when that call produced
  `None`;
* `diverged` — the `while self.cur_token != Token::Semicolon` loops of
  `parse_let_statement` / `parse_return_statement` (lines 78-80 and 92-94)
  when no semicolon remains: the lexer then yields `Eof` forever and the loop
  never exits. -/

inductive PFail where
  | panicked
  | diverged
  | fuelShort
deriving DecidableEq

/-- `cur_token` of the modelled parser state. -/
def curTok : List Token → Token
  | [] => .eof
  | t :: _ => t

/-- `peek_token` of the modelled parser state. -/
def peekTok : List Token → Token
  | [] => .eof
  | [_] => .eof
  | _ :: t :: _ => t

/-- `next_token`: drop the current token (no-op once the stream is spent,
mirroring the idempotent `Eof`). -/
def advTok : List Token → List Token
  | [] => []
  | _ :: ts => ts

/-- Result of one parser routine: parsed value, remaining stream,
accumulated errors. -/
structure PRes (α : Type) where
  val : α
  rest : List Token
  errs : List String

/-- The `Parser::peek_error` message
(`"expected next token to be {:?}, got {:?} instead"`). -/
def peekErrorMsg (expected actual : Token) : String :=
  "expected next token to be " ++ tokenDebug expected ++ ", got " ++
    tokenDebug actual ++ " instead"

/-- `Precedence` from src/parser/mod.rs, as its derived `PartialOrd` rank:
Lowest 0, Equals 1, LessGreater 2, Sum 3, Product 4, Prefix 5, Call 6. -/
def precedence_for : Token → Nat
  | .eq | .notEq => 1
  | .lt | .gt => 2
  | .plus | .minus => 3
  | .slash | .asterisk => 4
  | _ => 0

/-- The `while self.cur_token != Token::Semicolon { self.next_token(); }`
loop: stops with the semicolon as `cur_token`, or never stops when the
stream runs out first. -/
def skip_to_semicolon : List Token → Except PFail (List Token)
  | [] => .error .diverged
  | t :: ts =>
    if t = .semicolon then .ok (t :: ts) else skip_to_semicolon ts

/-- `parse_return_statement`: advances past `return`, skips everything up to
the next semicolon, and yields `Return(Literal(""))` — the returned
expression is never parsed (src/parser/mod.rs line 96). -/
def parse_return_statement (ts : List Token) (errs : List String) :
    Except PFail (PRes (Option Statement)) :=
  match skip_to_semicolon (advTok ts) with
  | .error f => .error f
  | .ok ts2 => .ok ⟨some (.returnS (.literal "")), ts2, errs⟩

mutual
/-- `parse_statement`: dispatch on the current token. -/
def parse_statement :
    Nat → List Token → List String → Except PFail (PRes (Option Statement))
  | 0, _, _ => .error .fuelShort
  | n + 1, ts, errs =>
    match curTok ts with
    | .letT => parse_let_statement n ts errs
    | .returnT => parse_return_statement ts errs
    | _ => parse_expression_statement n ts errs

/-- `parse_let_statement`: requires `Ident` then `=`; on either failure it
records a diagnostic and aborts only this statement.  The initializer parse
result is `.unwrap()`ed (line 76), then tokens are skipped to the
semicolon. -/
def parse_let_statement :
    Nat → List Token → List String → Except PFail (PRes (Option Statement))
  | 0, _, _ => .error .fuelShort
  | n + 1, ts, errs =>
    match peekTok ts with
    | .ident name =>
      let ts1 := advTok ts
      if peekTok ts1 = .assign then
        let ts3 := advTok (advTok ts1)
        match parse_expression n 0 ts3 errs with
        | .error f => .error f
        | .ok ⟨none, _, _⟩ => .error .panicked
        | .ok ⟨some e, ts4, errs4⟩ =>
          match skip_to_semicolon ts4 with
          | .error f => .error f
          | .ok ts5 => .ok ⟨some (.letS name e), ts5, errs4⟩
      else .ok ⟨none, ts1, errs ++ [peekErrorMsg .assign (peekTok ts1)]⟩
    | _ => .ok ⟨none, ts, errs ++ [peekErrorMsg (.ident "") (peekTok ts)]⟩

/-- `parse_expression_statement`: one expression at lowest precedence, an
optional trailing semicolon; a failed expression contributes no statement
(no unwrap here). -/
def parse_expression_statement :
    Nat → List Token → List String → Except PFail (PRes (Option Statement))
  | 0, _, _ => .error .fuelShort
  | n + 1, ts, errs =>
    match parse_expression n 0 ts errs with
    | .error f => .error f
    | .ok ⟨none, ts1, errs1⟩ => .ok ⟨none, ts1, errs1⟩
    | .ok ⟨some e, ts1, errs1⟩ =>
      if peekTok ts1 = .semicolon then .ok ⟨some (.exprS e), advTok ts1, errs1⟩
      else .ok ⟨some (.exprS e), ts1, errs1⟩

/-- `parse_expression`: Pratt parsing — the primary ("prefix position")
dispatch of src/parser/mod.rs lines 113-171, handing its result to the
infix-continuation loop. -/
def parse_expression :
    Nat → Nat → List Token → List String →
      Except PFail (PRes (Option Expression))
  | 0, _, _, _ => .error .fuelShort
  | n + 1, pre, ts, errs =>
    match curTok ts with
    | .ident s => parse_infix_loop n pre (.literal s) ts errs
    | .int i => parse_infix_loop n pre (.intE i) ts errs
    | .trueT => parse_infix_loop n pre (.boolean true) ts errs
    | .falseT => parse_infix_loop n pre (.boolean false) ts errs
    | .lparen =>
      match parse_expression n 0 (advTok ts) errs with
      | .error f => .error f
      | .ok ⟨none, _, _⟩ => .error .panicked
      | .ok ⟨some e, ts2, errs2⟩ =>
        if peekTok ts2 = .rparen then parse_infix_loop n pre e (advTok ts2) errs2
        else .ok ⟨none, ts2, errs2 ++ [peekErrorMsg .rparen (peekTok ts2)]⟩
    | .bang =>
      match parse_expression n 5 (advTok ts) errs with
      | .error f => .error f
      | .ok ⟨none, _, _⟩ => .error .panicked
      | .ok ⟨some e, ts2, errs2⟩ =>
        parse_infix_loop n pre (.prefixE "!" e) ts2 errs2
    | .minus =>
      match parse_expression n 5 (advTok ts) errs with
      | .error f => .error f
      | .ok ⟨none, _, _⟩ => .error .panicked
      | .ok ⟨some e, ts2, errs2⟩ =>
        parse_infix_loop n pre (.prefixE "-" e) ts2 errs2
    | .ifT =>
      if peekTok ts = .lparen then
        let ts1 := advTok ts
        match parse_expression n 0 (advTok ts1) errs with
        | .error f => .error f
        | .ok ⟨none, _, _⟩ => .error .panicked
        | .ok ⟨some c, ts3, errs3⟩ =>
          if peekTok ts3 = .rparen then
            let ts4 := advTok ts3
            if peekTok ts4 = .lbrace then
              match parse_block_statement n (advTok ts4) errs3 with
              | .error f => .error f
              | .ok ⟨conseq, ts6, errs6⟩ =>
                if peekTok ts6 = .elseT then
                  let ts7 := advTok ts6
                  if peekTok ts7 = .lbrace then
                    match parse_block_statement n (advTok ts7) errs6 with
                    | .error f => .error f
                    | .ok ⟨alt, ts9, errs9⟩ =>
                      parse_infix_loop n pre (.ifE c conseq (some alt)) ts9 errs9
                  else
                    .ok ⟨none, ts7, errs6 ++ [peekErrorMsg .lbrace (peekTok ts7)]⟩
                else parse_infix_loop n pre (.ifE c conseq none) ts6 errs6
            else .ok ⟨none, ts4, errs3 ++ [peekErrorMsg .lbrace (peekTok ts4)]⟩
          else .ok ⟨none, ts3, errs3 ++ [peekErrorMsg .rparen (peekTok ts3)]⟩
      else .ok ⟨none, ts, errs ++ [peekErrorMsg .lparen (peekTok ts)]⟩
    | t =>
      .ok ⟨none, ts,
        errs ++ ["undefined expression for " ++ tokenDisplay t ++ " found"]⟩

/-- The infix-continuation loop of `parse_expression`
(src/parser/mod.rs lines 173-194). -/
def parse_infix_loop :
    Nat → Nat → Expression → List Token → List String →
      Except PFail (PRes (Option Expression))
  | 0, _, _, _, _ => .error .fuelShort
  | n + 1, pre, left, ts, errs =>
    let pk := peekTok ts
    if pk ≠ .semicolon ∧ pre < precedence_for pk then
      match pk with
      | .plus | .minus | .slash | .asterisk | .eq | .notEq | .lt | .gt =>
        let op := tokenDisplay pk
        let cpre := precedence_for pk
        match parse_expression n cpre (advTok (advTok ts)) errs with
        | .error f => .error f
        | .ok ⟨none, _, _⟩ => .error .panicked
        | .ok ⟨some right, ts3, errs3⟩ =>
          parse_infix_loop n pre (.infixE left op right) ts3 errs3
      | _ => .ok ⟨some left, ts, errs⟩
    else .ok ⟨some left, ts, errs⟩

/-- `parse_block_statement` body: `next_token` already done by the caller;
loop until `}` or `Eof`, collecting the statements that parsed. -/
def parse_block_loop :
    Nat → List Token → List String → Statements →
      Except PFail (PRes Statements)
  | 0, _, _, _ => .error .fuelShort
  | n + 1, ts, errs, acc =>
    if curTok ts = .rbrace ∨ curTok ts = .eof then .ok ⟨acc, ts, errs⟩
    else
      match parse_statement n ts errs with
      | .error f => .error f
      | .ok ⟨stmt, ts1, errs1⟩ =>
        parse_block_loop n (advTok ts1) errs1
          (match stmt with
           | some s => acc.push s
           | none => acc)

/-- `parse_block_statement`: advance past `{`, then run the block loop. -/
def parse_block_statement :
    Nat → List Token → List String → Except PFail (PRes Statements)
  | 0, _, _ => .error .fuelShort
  | n + 1, ts, errs => parse_block_loop n (advTok ts) errs .nil
end

/-- The `while self.cur_token != Token::Eof` loop of `parse_program`. -/
def parse_program_loop :
    Nat → List Token → List String → Statements →
      Except PFail (PRes Statements)
  | 0, _, _, _ => .error .fuelShort
  | n + 1, ts, errs, acc =>
    if curTok ts = .eof then .ok ⟨acc, ts, errs⟩
    else
      match parse_statement n ts errs with
      | .error f => .error f
      | .ok ⟨stmt, ts1, errs1⟩ =>
        parse_program_loop n (advTok ts1) errs1
          (match stmt with
           | some s => acc.push s
           | none => acc)

/-- Fuel that strictly dominates the parser's recursion depth: every mutual
call either consumes a token first or moves to a routine that does so within
six steps. -/
def parseFuel (ts : List Token) : Nat := 8 * ts.length + 16

/-- `Parser::parse_program` over a token stream, returning the `Program`
together with the accumulated error list (`Parser::errors`). -/
def parse_program (ts : List Token) :
    Except PFail (Program × List String) :=
  match parse_program_loop (parseFuel ts) ts [] .nil with
  | .error f => .error f
  | .ok r => .ok (r.val, r.errs)

/-!  ## Pipeline (src/repl/mod.rs lines 30-42)

One repl iteration: lex the line, parse it, print the parse errors and skip
evaluation when the error list is non-empty, otherwise evaluate against the
session environment and (when a value came back) print its rendering. -/

/-- Observable outcome of feeding one line through the pipeline. -/
inductive RunOut where
  | lexFail (f : LexFail)
  | parseFail (f : PFail)
  | parseErrors (errs : List String)
  | value (r : Option Object) (env : Environment)
deriving DecidableEq

/-- Lex and parse one source line (`Lexer::new` + `Parser::new` +
`parse_program` + `errors`). -/
def parseSource (s : String) :
    Except LexFail (Except PFail (Program × List String)) :=
  match lexAll s with
  | .error f => .error f
  | .ok ts => .ok (parse_program ts)

/-- One repl iteration (src/repl/mod.rs lines 30-42): on parse errors the
program is not evaluated; otherwise `eval_program` runs against `env`.  An
evaluation panic (`Except.error`) is the modelled process crash. -/
def runLine (s : String) (env : Environment) : Except EPanic RunOut :=
  match parseSource s with
  | .error f => .ok (.lexFail f)
  | .ok (.error f) => .ok (.parseFail f)
  | .ok (.ok (prog, errs)) =>
    if errs ≠ [] then .ok (.parseErrors errs)
    else
      match eval_program prog env with
      | .error p => .error p
      | .ok (r, env2) => .ok (.value r env2)

/-!  ## Helper predicates and lemmas for the claim theorems -/

/-- An `Object` that is the error signal. -/
def isErrorObj : Object → Bool
  | .error _ => true
  | _ => false

/-- An `Object` that is one of the two control signals. -/
def isSignalObj : Object → Bool
  | .error _ => true
  | .ret _ => true
  | _ => false

/-- Every value bound in the environment is a non-error value. -/
def envNoError (env : Environment) : Bool :=
  env.all (fun kv => !isErrorObj kv.2)

/-- The environment carried by a program-walk outcome. -/
def progOutEnv : ProgOut → Environment
  | .finished _ e => e
  | .stopped _ e => e

/-- Whether a program-walk outcome carries a value (`Some`). -/
def progOutSome : ProgOut → Bool
  | .finished r _ => r.isSome
  | .stopped _ _ => true

/-- The statement sequence is non-empty and its final statement is not a
`let` binding. -/
def endsNonLet : Statements → Bool
  | .nil => false
  | .cons s .nil =>
    match s with
    | .letS _ _ => false
    | _ => true
  | .cons _ (.cons s tl) => endsNonLet (.cons s tl)

mutual
/-- Expressions that use neither a conditional nor the `/` operator (the two
expression forms whose evaluation can reach a panic site). -/
def exprSafe : Expression → Bool
  | .literal _ => true
  | .intE _ => true
  | .boolean _ => true
  | .prefixE _ r => exprSafe r
  | .infixE l op r => !(op == "/") && exprSafe l && exprSafe r
  | .ifE _ _ _ => false
def stmtSafe : Statement → Bool
  | .letS _ e => exprSafe e
  | .returnS e => exprSafe e
  | .exprS e => exprSafe e
def stmtsSafe : Statements → Bool
  | .nil => true
  | .cons s tl => stmtSafe s && stmtsSafe tl
end

/-- Parse a line and render the resulting program, provided lexing, parsing
and the parser's error list were all clean. -/
def renderOf (s : String) : Option String :=
  match parseSource s with
  | .ok (.ok (prog, errs)) =>
    if errs = [] then some (stmtsToString prog) else none
  | _ => none

/-- The skip-to-semicolon loop diverges exactly when no semicolon remains in
the stream (the lexer then feeds `Eof` forever and `cur_token` never becomes
`Semicolon`). -/
theorem skip_to_semicolon_diverged_iff (ts : List Token) :
    skip_to_semicolon ts = .error .diverged ↔ Token.semicolon ∉ ts := by
  induction ts with
  | nil => simp [skip_to_semicolon]
  | cons t tl ih =>
    by_cases h : t = Token.semicolon
    · subst h
      simp [skip_to_semicolon]
    · simp [skip_to_semicolon, h, ih, Ne.symm h]

/-- Once the program-level walk stops early, any statements appended after
the stopping point leave the outcome (value and environment) unchanged. -/
theorem evalStmts_append_stopped :
    (pre post : Statements) → (env : Environment) → (r0 : Option Object) →
      (v : Object) → (e2 : Environment) →
      evalStmts pre env r0 = .ok (.stopped v e2) →
      evalStmts (pre.append post) env r0 = .ok (.stopped v e2)
  | .nil, _, env, r0, _, _, h => by simp [evalStmts] at h
  | .cons (.exprS e) tl, post, env, r0, v, e2, h => by
    simp only [evalStmts] at h
    simp only [Statements.append, evalStmts]
    cases he : eval_expression e env with
    | error p => simp only [he] at h; exact Except.noConfusion h
    | ok o =>
      simp only [he] at h ⊢
      cases o with
      | ret o2 => exact h
      | error m => exact h
      | integer i =>
        exact evalStmts_append_stopped tl post env (some (.integer i)) v e2 h
      | boolean b =>
        exact evalStmts_append_stopped tl post env (some (.boolean b)) v e2 h
      | null => exact evalStmts_append_stopped tl post env (some .null) v e2 h
  | .cons (.letS x e) tl, post, env, r0, v, e2, h => by
    simp only [evalStmts] at h
    simp only [Statements.append, evalStmts]
    cases he : eval_expression e env with
    | error p => simp only [he] at h; exact Except.noConfusion h
    | ok o =>
      simp only [he] at h ⊢
      cases o with
      | error m => exact h
      | ret o2 =>
        exact evalStmts_append_stopped tl post (envInsert x (.ret o2) env) none v e2 h
      | integer i =>
        exact evalStmts_append_stopped tl post (envInsert x (.integer i) env) none v e2 h
      | boolean b =>
        exact evalStmts_append_stopped tl post (envInsert x (.boolean b) env) none v e2 h
      | null =>
        exact evalStmts_append_stopped tl post (envInsert x .null env) none v e2 h
  | .cons (.returnS e) tl, post, env, r0, v, e2, h => by
    simp only [evalStmts] at h
    simp only [Statements.append, evalStmts]
    cases he : eval_expression e env with
    | error p => simp only [he] at h; exact Except.noConfusion h
    | ok o => simp only [he] at h ⊢; exact h

/-- A `let` statement never binds an error signal: if the environment held no
error-signal values before an evaluation, it holds none afterwards. -/
theorem evalStmts_envNoError :
    (p : Statements) → (env : Environment) → (r0 : Option Object) →
      (out : ProgOut) → envNoError env = true →
      evalStmts p env r0 = .ok out → envNoError (progOutEnv out) = true
  | .nil, env, r0, out, henv, h => by
    simp only [evalStmts] at h
    cases h
    simpa [progOutEnv] using henv
  | .cons (.exprS e) tl, env, r0, out, henv, h => by
    simp only [evalStmts] at h
    cases he : eval_expression e env with
    | error p => simp only [he] at h; exact Except.noConfusion h
    | ok o =>
      simp only [he] at h
      cases o with
      | ret o2 => cases h; simpa [progOutEnv] using henv
      | error m => cases h; simpa [progOutEnv] using henv
      | integer i => exact evalStmts_envNoError tl env (some (.integer i)) out henv h
      | boolean b => exact evalStmts_envNoError tl env (some (.boolean b)) out henv h
      | null => exact evalStmts_envNoError tl env (some .null) out henv h
  | .cons (.letS x e) tl, env, r0, out, henv, h => by
    simp only [evalStmts] at h
    cases he : eval_expression e env with
    | error p => simp only [he] at h; exact Except.noConfusion h
    | ok o =>
      simp only [he] at h
      cases o with
      | error m => cases h; simpa [progOutEnv] using henv
      | ret o2 =>
        refine evalStmts_envNoError tl (envInsert x (.ret o2) env) none out ?_ h
        simpa [envNoError, envInsert, isErrorObj] using henv
      | integer i =>
        refine evalStmts_envNoError tl (envInsert x (.integer i) env) none out ?_ h
        simpa [envNoError, envInsert, isErrorObj] using henv
      | boolean b =>
        refine evalStmts_envNoError tl (envInsert x (.boolean b) env) none out ?_ h
        simpa [envNoError, envInsert, isErrorObj] using henv
      | null =>
        refine evalStmts_envNoError tl (envInsert x .null env) none out ?_ h
        simpa [envNoError, envInsert, isErrorObj] using henv
  | .cons (.returnS e) tl, env, r0, out, henv, h => by
    simp only [evalStmts] at h
    cases he : eval_expression e env with
    | error p => simp only [he] at h; exact Except.noConfusion h
    | ok o => simp only [he] at h; cases h; simpa [progOutEnv] using henv

/-- If the final statement of a (necessarily non-empty) sequence is an
expression or `return` statement, a non-panicking walk carries a value. -/
theorem evalStmts_endsNonLet :
    (p : Statements) → (env : Environment) → (r0 : Option Object) →
      (out : ProgOut) → endsNonLet p = true →
      evalStmts p env r0 = .ok out → progOutSome out = true
  | .nil, _, _, _, hend, _ => by simp [endsNonLet] at hend
  | .cons (.exprS e) .nil, env, r0, out, _, h => by
    simp only [evalStmts] at h
    cases he : eval_expression e env with
    | error p => simp only [he] at h; exact Except.noConfusion h
    | ok o =>
      simp only [he] at h
      cases o with
      | ret o2 => cases h; rfl
      | error m => cases h; rfl
      | integer i => simp only [evalStmts] at h; cases h; rfl
      | boolean b => simp only [evalStmts] at h; cases h; rfl
      | null => simp only [evalStmts] at h; cases h; rfl
  | .cons (.letS x e) .nil, _, _, _, hend, _ => by simp [endsNonLet] at hend
  | .cons (.returnS e) .nil, env, r0, out, _, h => by
    simp only [evalStmts] at h
    cases he : eval_expression e env with
    | error p => simp only [he] at h; exact Except.noConfusion h
    | ok o => simp only [he] at h; cases h; rfl
  | .cons (.exprS e) (.cons s2 tl), env, r0, out, hend, h => by
    simp only [evalStmts] at h
    have hend2 : endsNonLet (.cons s2 tl) = true := hend
    cases he : eval_expression e env with
    | error p => simp only [he] at h; exact Except.noConfusion h
    | ok o =>
      simp only [he] at h
      cases o with
      | ret o2 => cases h; rfl
      | error m => cases h; rfl
      | integer i =>
        exact evalStmts_endsNonLet (.cons s2 tl) env (some (.integer i)) out hend2 h
      | boolean b =>
        exact evalStmts_endsNonLet (.cons s2 tl) env (some (.boolean b)) out hend2 h
      | null =>
        exact evalStmts_endsNonLet (.cons s2 tl) env (some .null) out hend2 h
  | .cons (.letS x e) (.cons s2 tl), env, r0, out, hend, h => by
    simp only [evalStmts] at h
    have hend2 : endsNonLet (.cons s2 tl) = true := hend
    cases he : eval_expression e env with
    | error p => simp only [he] at h; exact Except.noConfusion h
    | ok o =>
      simp only [he] at h
      cases o with
      | error m => cases h; rfl
      | ret o2 =>
        exact evalStmts_endsNonLet (.cons s2 tl) (envInsert x (.ret o2) env) none out hend2 h
      | integer i =>
        exact evalStmts_endsNonLet (.cons s2 tl) (envInsert x (.integer i) env) none out hend2 h
      | boolean b =>
        exact evalStmts_endsNonLet (.cons s2 tl) (envInsert x (.boolean b) env) none out hend2 h
      | null =>
        exact evalStmts_endsNonLet (.cons s2 tl) (envInsert x .null env) none out hend2 h
  | .cons (.returnS e) (.cons s2 tl), env, r0, out, _, h => by
    simp only [evalStmts] at h
    cases he : eval_expression e env with
    | error p => simp only [he] at h; exact Except.noConfusion h
    | ok o => simp only [he] at h; cases h; rfl

/-- The infix operator dispatch never panics unless the operator is `/`. -/
theorem evalInfixOp_ok (op : String) (lv rv : Object) (hop : ¬op = "/") :
    ∃ o, evalInfixOp op lv rv = .ok o := by
  cases lv <;> cases rv <;>
    simp only [evalInfixOp] <;>
    split_ifs <;>
    exact ⟨_, rfl⟩

/-- Evaluating an expression that contains no conditional and no `/` never
reaches a panic site: it always produces an `Object`. -/
theorem exprSafe_ok :
    (e : Expression) → (env : Environment) → exprSafe e = true →
      ∃ o, eval_expression e env = .ok o
  | .literal l, env, _ => by
    cases hg : envGet env l with
    | none =>
      exact ⟨.error ("identifier not found: " ++ l),
        by simp only [eval_expression, hg]⟩
    | some o => exact ⟨o, by simp only [eval_expression, hg]⟩
  | .intE i, env, _ => ⟨_, rfl⟩
  | .boolean b, env, _ => ⟨_, rfl⟩
  | .prefixE op r, env, hs => by
    have hr : exprSafe r = true := by simpa [exprSafe] using hs
    obtain ⟨o, ho⟩ := exprSafe_ok r env hr
    rw [eval_expression, ho]
    cases o <;> exact ⟨_, rfl⟩
  | .infixE l op r, env, hs => by
    have hparts : ¬op = "/" ∧ exprSafe l = true ∧ exprSafe r = true := by
      simpa [exprSafe, Bool.and_eq_true, and_assoc] using hs
    obtain ⟨hop, hl, hr⟩ := hparts
    obtain ⟨lv, hlv⟩ := exprSafe_ok l env hl
    obtain ⟨rv, hrv⟩ := exprSafe_ok r env hr
    rw [eval_expression, hlv, hrv]
    cases lv with
    | error m => exact ⟨_, rfl⟩
    | integer li =>
      cases rv with
      | error m => exact ⟨_, rfl⟩
      | integer ri =>
        obtain ⟨o, ho⟩ := evalInfixOp_ok op (.integer li) (.integer ri) hop
        exact ⟨o, ho⟩
      | boolean b =>
        obtain ⟨o, ho⟩ := evalInfixOp_ok op (.integer li) (.boolean b) hop
        exact ⟨o, ho⟩
      | null =>
        obtain ⟨o, ho⟩ := evalInfixOp_ok op (.integer li) .null hop
        exact ⟨o, ho⟩
      | ret o2 =>
        obtain ⟨o, ho⟩ := evalInfixOp_ok op (.integer li) (.ret o2) hop
        exact ⟨o, ho⟩
    | boolean lb =>
      cases rv with
      | error m => exact ⟨_, rfl⟩
      | _ => exact evalInfixOp_ok op (.boolean lb) _ hop
    | null =>
      cases rv with
      | error m => exact ⟨_, rfl⟩
      | _ => exact evalInfixOp_ok op .null _ hop
    | ret lo =>
      cases rv with
      | error m => exact ⟨_, rfl⟩
      | _ => exact evalInfixOp_ok op (.ret lo) _ hop
  | .ifE c q a, _, hs => by simp [exprSafe] at hs

/-- A statement sequence whose expressions contain no conditional and no `/`
evaluates without panicking. -/
theorem stmtsSafe_ok :
    (p : Statements) → (env : Environment) → (r0 : Option Object) →
      stmtsSafe p = true → ∃ out, evalStmts p env r0 = .ok out
  | .nil, env, r0, _ => ⟨_, rfl⟩
  | .cons (.exprS e) tl, env, r0, hs => by
    have hparts : exprSafe e = true ∧ stmtsSafe tl = true := by
      simpa [stmtsSafe, stmtSafe, Bool.and_eq_true] using hs
    obtain ⟨o, ho⟩ := exprSafe_ok e env hparts.1
    simp only [evalStmts, ho]
    cases o with
    | ret o2 => exact ⟨_, rfl⟩
    | error m => exact ⟨_, rfl⟩
    | integer i => exact stmtsSafe_ok tl env (some (.integer i)) hparts.2
    | boolean b => exact stmtsSafe_ok tl env (some (.boolean b)) hparts.2
    | null => exact stmtsSafe_ok tl env (some .null) hparts.2
  | .cons (.letS x e) tl, env, r0, hs => by
    have hparts : exprSafe e = true ∧ stmtsSafe tl = true := by
      simpa [stmtsSafe, stmtSafe, Bool.and_eq_true] using hs
    obtain ⟨o, ho⟩ := exprSafe_ok e env hparts.1
    simp only [evalStmts, ho]
    cases o with
    | error m => exact ⟨_, rfl⟩
    | ret o2 => exact stmtsSafe_ok tl (envInsert x (.ret o2) env) none hparts.2
    | integer i => exact stmtsSafe_ok tl (envInsert x (.integer i) env) none hparts.2
    | boolean b => exact stmtsSafe_ok tl (envInsert x (.boolean b) env) none hparts.2
    | null => exact stmtsSafe_ok tl (envInsert x .null env) none hparts.2
  | .cons (.returnS e) tl, env, r0, hs => by
    have hparts : exprSafe e = true ∧ stmtsSafe tl = true := by
      simpa [stmtsSafe, stmtSafe, Bool.and_eq_true] using hs
    obtain ⟨o, ho⟩ := exprSafe_ok e env hparts.1
    simp only [evalStmts, ho]
    cases o <;> exact ⟨_, rfl⟩

/-!  ## Claims -/

set_option maxRecDepth 8000 in
/-- C1: the claim states that the nested-return program evaluates to integer
10 and that parsing retains the returned expression.  The code instead
parses every `return` statement as `Return(Literal(""))`
(src/parser/mod.rs line 96), discarding the expression, so the pipeline
evaluates the program to the error signal `identifier not found: ` —
contradicting the repository's own evaluator tests.  This theorem evaluates
the code at the failing inputs. -/
theorem c1_return_discards_expression :
    parse_program [.returnT, .int 10, .semicolon] =
      .ok (.cons (.returnS (.literal "")) .nil, []) ∧
    runLine
        "if (10 > 1) { if (10 > 1) { return 10; } return 1; } else { return 11; }"
        [] =
      .ok (.value (some (.error "identifier not found: ")) []) :=
  ⟨rfl, rfl⟩

/-- C2 counterexample: the finite input `"return 5"` lexes cleanly, yet
`parse_program` does not terminate on it — the skip-to-semicolon loop of
`parse_return_statement` reaches end of input, where the lexer feeds `Eof`
forever (the `diverged` outcome of the model). -/
theorem c2_counterexample :
    lexAll "return 5" = .ok [.returnT, .int 5] ∧
    parse_program [.returnT, .int 5] = .error .diverged :=
  ⟨rfl, rfl⟩

/-- C2 (amended): a parse cycle runs to completion only when every `let` /
`return` statement it reaches finds a semicolon: the skip-to-semicolon loop
diverges exactly when no `Semicolon` token remains in the stream, so
`"let x = 5"` (no semicolon before end of input) loops forever while
`"return 5;"` parses to completion. -/
theorem c2_skip_termination :
    (∀ ts : List Token,
      skip_to_semicolon ts = .error .diverged ↔ Token.semicolon ∉ ts) ∧
    parse_program [.letT, .ident "x", .assign, .int 5] = .error .diverged ∧
    parse_program [.returnT, .int 5, .semicolon] =
      .ok (.cons (.returnS (.literal "")) .nil, []) :=
  ⟨skip_to_semicolon_diverged_iff, rfl, rfl⟩

/-- C2 witness: the iff applied at a concrete semicolon-free stream. -/
theorem c2_skip_termination_witness :
    skip_to_semicolon [Token.int 5] = .error .diverged :=
  (c2_skip_termination.1 [Token.int 5]).mpr (by decide)

/-- C3 counterexample: `"if (true) { }"` parses cleanly, yet evaluating it
panics — the `eval_block_statements(..).unwrap()` of the empty consequence
block — a fatal condition beyond the two the claim allows. -/
theorem c3_counterexample :
    runLine "if (true) { }" [] = .error .unwrapNone := rfl

/-- C3 (amended): besides lex-time literal overflow and the division panics,
evaluation also panics when a conditional's chosen block produces no value
(an empty block, or one holding only `let` statements).  Evaluating any
program whose expressions contain no conditional and no `/` operator returns
a defined outcome for every environment. -/
theorem c3_no_panic_without_if_div (p : Statements) (env : Environment)
    (hs : stmtsSafe p = true) :
    ∃ out, eval_program p env = .ok out := by
  obtain ⟨out, hout⟩ := stmtsSafe_ok p env none hs
  cases out with
  | finished r e => exact ⟨(r, e), by simp only [eval_program, hout]⟩
  | stopped v e => exact ⟨(some v, e), by simp only [eval_program, hout]⟩

/-- C3 witness: the no-panic theorem applied to a concrete safe program. -/
theorem c3_no_panic_witness :
    stmtsSafe (.cons (.letS "a" (.intE 5))
      (.cons (.exprS (.literal "a")) .nil)) = true ∧
    ∃ out,
      eval_program (.cons (.letS "a" (.intE 5))
        (.cons (.exprS (.literal "a")) .nil)) [] = .ok out :=
  ⟨rfl, c3_no_panic_without_if_div _ [] rfl⟩

/-- C4 counterexample: on `"let x = ;"` the parser does not record an error
and continue — the `let` arm `.unwrap()`s the failed initializer parse and
panics. -/
theorem c4_counterexample :
    lexAll "let x = ;" = .ok [.letT, .ident "x", .assign, .semicolon] ∧
    parse_program [.letT, .ident "x", .assign, .semicolon] =
      .error .panicked :=
  ⟨rfl, rfl⟩

/-- C4 (amended): a parse error in prefix position at the start of an
expression statement is recorded as a diagnostic and parsing continues (here
both the stray `Illegal` and the stray `;` are reported and the trailing `5`
still parses); but where the parser requires a sub-expression — a `let`
initializer, a parenthesised or prefix operand, an `if` condition, or an
infix right-hand side — a failed parse is `.unwrap()`ed and the parser
panics instead of recovering, e.g. on `"let x = ;"`. -/
theorem c4_recovery_and_panic :
    parse_program [.illegal, .semicolon, .int 5, .semicolon] =
      .ok (.cons (.exprS (.intE 5)) .nil,
        ["undefined expression for Illegal found",
         "undefined expression for Semicolon found"]) ∧
    parse_program [.letT, .ident "x", .assign, .semicolon] =
      .error .panicked :=
  ⟨rfl, rfl⟩

/-- C5 counterexample: a non-empty program whose final statement is a `let`
binding makes `eval_program` return `None` — the `let` arm resets the
running result. -/
theorem c5_counterexample :
    eval_program (.cons (.letS "a" (.intE 5)) .nil) [] =
      .ok (none, [("a", .integer 5)]) ∧
    Statements.cons (.letS "a" (.intE 5)) .nil ≠ .nil :=
  ⟨rfl, fun h => Statements.noConfusion h⟩

/-- C5 (amended): `eval_program` returns `None` for the empty sequence and
also when the last executed statement is a `let` binding; for a program
whose final statement is an expression or `return` statement, every
non-panicking run returns `Some`. -/
theorem c5_none_iff_empty_or_let_last :
    (∀ env : Environment, eval_program .nil env = .ok (none, env)) ∧
    (∀ (p : Statements) (env : Environment)
        (out : Option Object × Environment),
      endsNonLet p = true → eval_program p env = .ok out →
      out.1.isSome = true) := by
  refine ⟨fun env => rfl, ?_⟩
  intro p env out hend hrun
  cases hev : evalStmts p env none with
  | error q =>
    rw [show eval_program p env = .error q by
      simp only [eval_program, hev]] at hrun
    exact Except.noConfusion hrun
  | ok o =>
    have hsome := evalStmts_endsNonLet p env none o hend hev
    cases o with
    | finished r e =>
      rw [show eval_program p env = .ok (r, e) by
        simp only [eval_program, hev]] at hrun
      cases hrun
      simpa [progOutSome] using hsome
    | stopped v e =>
      rw [show eval_program p env = .ok (some v, e) by
        simp only [eval_program, hev]] at hrun
      cases hrun
      rfl

/-- C5 witness: the Some-result half applied to a concrete program ending in
an expression statement. -/
theorem c5_witness :
    endsNonLet (.cons (.exprS (.intE 5)) .nil) = true ∧
    ((some (Object.integer 5), ([] : Environment)) :
        Option Object × Environment).1.isSome = true :=
  ⟨rfl, c5_none_iff_empty_or_let_last.2 (.cons (.exprS (.intE 5)) .nil) []
    (some (.integer 5), []) rfl rfl⟩

/-- C6 counterexample: a `let` whose initializer is a conditional containing
a `return` stores the return signal itself in the Environment — the `let`
arm only filters `Object::Error`, not `Object::Return`. -/
theorem c6_counterexample :
    eval_program
        (.cons (.letS "x" (.ifE (.boolean true)
          (.cons (.returnS (.intE 5)) .nil) none)) .nil) [] =
      .ok (none, [("x", .ret (.integer 5))]) ∧
    envGet [("x", .ret (.integer 5))] "x" = some (.ret (.integer 5)) ∧
    isSignalObj (.ret (.integer 5)) = true :=
  ⟨rfl, rfl, rfl⟩

/-- C6 (amended): the Environment never stores an error signal — a `let`
whose initializer evaluates to an error propagates the error without binding
— but a return signal can be stored when the initializer is a conditional
whose block executes a `return`. -/
theorem c6_no_error_stored (p : Statements) (env : Environment)
    (out : Option Object × Environment)
    (henv : envNoError env = true)
    (h : eval_program p env = .ok out) :
    envNoError out.2 = true := by
  cases hev : evalStmts p env none with
  | error q =>
    rw [show eval_program p env = .error q by
      simp only [eval_program, hev]] at h
    exact Except.noConfusion h
  | ok o =>
    have hpre := evalStmts_envNoError p env none o henv hev
    cases o with
    | finished r e =>
      rw [show eval_program p env = .ok (r, e) by
        simp only [eval_program, hev]] at h
      cases h
      simpa [progOutEnv] using hpre
    | stopped v e =>
      rw [show eval_program p env = .ok (some v, e) by
        simp only [eval_program, hev]] at h
      cases h
      simpa [progOutEnv] using hpre

/-- C6 witness: the preservation theorem applied to a concrete run that
binds a value on top of a clean starting environment. -/
theorem c6_witness :
    envNoError [("y", Object.integer 1)] = true ∧
    envNoError ((none, [("a", Object.integer 5), ("y", Object.integer 1)]) :
        Option Object × Environment).2 = true :=
  ⟨rfl, c6_no_error_stored (.cons (.letS "a" (.intE 5)) .nil)
    [("y", .integer 1)] (none, [("a", .integer 5), ("y", .integer 1)])
    rfl rfl⟩

/-- C7 counterexample: no runtime value is rendered in the plain form the
claim states — integers, booleans, null and error signals are all printed
inside their variant name. -/
theorem c7_counterexample :
    objDisplay (.integer 5) ≠ "5" ∧
    objDisplay (.boolean true) ≠ "true" ∧
    objDisplay .null ≠ "null" ∧
    objDisplay (.error "identifier not found: foobar") ≠
      "identifier not found: foobar" := by
  refine ⟨?_, ?_, ?_, ?_⟩ <;> decide

/-- C7 (amended): the rendering the repl prints wraps every runtime value in
its variant name — `Integer(<decimal>)`, `Boolean(true)`/`Boolean(false)`,
`Null`, `Error(<message>)` — as the whole-pipeline run of `"foobar"`
demonstrates. -/
theorem c7_display_forms :
    (∀ i : Int, objDisplay (.integer i) = "Integer(" ++ toString i ++ ")") ∧
    objDisplay (.boolean true) = "Boolean(true)" ∧
    objDisplay (.boolean false) = "Boolean(false)" ∧
    objDisplay .null = "Null" ∧
    (∀ m : String, objDisplay (.error m) = "Error(" ++ m ++ ")") ∧
    runLine "foobar" [] =
      .ok (.value (some (.error "identifier not found: foobar")) []) ∧
    objDisplay (.error "identifier not found: foobar") =
      "Error(identifier not found: foobar)" :=
  ⟨fun _ => rfl, rfl, rfl, rfl, fun _ => rfl, rfl, rfl⟩

/-- C8: `"5 + true;"` evaluates to exactly the claimed error message; the
program `"5; true + false; 5"` produces the identical outcome (value and
environment) as `"true + false;"` alone; and in general, once the statement
walk stops on an error signal, appended statements are never executed and
change neither the value nor the environment. -/
theorem c8_error_atomicity :
    runLine "5 + true;" [] =
      .ok (.value (some (.error
        "mismatch expression operation: Integer(5) + Boolean(true)")) []) ∧
    runLine "5; true + false; 5" [] = runLine "true + false;" [] ∧
    (∀ (pre post : Statements) (env e2 : Environment) (r0 : Option Object)
        (m : String),
      evalStmts pre env r0 = .ok (.stopped (.error m) e2) →
      evalStmts (pre.append post) env r0 = .ok (.stopped (.error m) e2)) :=
  ⟨rfl, rfl, fun pre post env e2 r0 m h =>
    evalStmts_append_stopped pre post env r0 (.error m) e2 h⟩

/-- C8 witness: the stop-on-error part applied to a concrete erroring prefix
with a trailing statement appended. -/
theorem c8_witness :
    evalStmts (.cons (.exprS (.infixE (.boolean true) "+" (.boolean false)))
        .nil) [] none =
      .ok (.stopped (.error
        "mismatch expression operation: Boolean(true) + Boolean(false)")
        []) ∧
    evalStmts (Statements.append
        (.cons (.exprS (.infixE (.boolean true) "+" (.boolean false))) .nil)
        (.cons (.exprS (.intE 5)) .nil)) [] none =
      .ok (.stopped (.error
        "mismatch expression operation: Boolean(true) + Boolean(false)")
        []) :=
  ⟨rfl, c8_error_atomicity.2.2
    (.cons (.exprS (.infixE (.boolean true) "+" (.boolean false))) .nil)
    (.cons (.exprS (.intE 5)) .nil) [] [] none
    "mismatch expression operation: Boolean(true) + Boolean(false)" rfl⟩

set_option maxRecDepth 8000 in
/-- C9: parsing and canonically re-rendering the two spec inputs yields
exactly the claimed fully-parenthesised forms (with an empty parser error
list). -/
theorem c9_precedence_rendering :
    renderOf "a + b * c + d / e - f" =
      some "(((a + (b * c)) + (d / e)) - f)" ∧
    renderOf "3 + 4 * 5 == 3 * 1 + 4 * 5" =
      some "((3 + (4 * 5)) == ((3 * 1) + (4 * 5)))" :=
  ⟨rfl, rfl⟩

/-- C10: a `let` inside a block falls into the block evaluator's `_ => {}`
arm and is skipped outright: the equation holds for every initializer
(which is therefore never evaluated) and preserves the running result; and
since blocks never write to the environment, a program statement holding
such a block hands the environment back unchanged. -/
theorem c10_block_let_skipped :
    (∀ (x : String) (e : Expression) (tl : Statements) (env : Environment)
        (r0 : Option Object),
      eval_block_statements (.cons (.letS x e) tl) env r0 =
        eval_block_statements tl env r0) ∧
    (∀ (e : Expression) (env : Environment)
        (out : Option Object × Environment),
      eval_program (.cons (.exprS e) .nil) env = .ok out → out.2 = env) := by
  constructor
  · intro x e tl env r0
    rw [eval_block_statements]
  · intro e env out h
    cases hev : eval_expression e env with
    | error p =>
      rw [show eval_program (.cons (.exprS e) .nil) env = .error p by
        simp only [eval_program, evalStmts, hev]] at h
      exact Except.noConfusion h
    | ok o =>
      cases o with
      | ret o2 =>
        rw [show eval_program (.cons (.exprS e) .nil) env = .ok (some o2, env) by
          simp only [eval_program, evalStmts, hev]] at h
        cases h; rfl
      | error m =>
        rw [show eval_program (.cons (.exprS e) .nil) env =
            .ok (some (.error m), env) by
          simp only [eval_program, evalStmts, hev]] at h
        cases h; rfl
      | integer i =>
        rw [show eval_program (.cons (.exprS e) .nil) env =
            .ok (some (.integer i), env) by
          simp only [eval_program, evalStmts, hev]] at h
        cases h; rfl
      | boolean b =>
        rw [show eval_program (.cons (.exprS e) .nil) env =
            .ok (some (.boolean b), env) by
          simp only [eval_program, evalStmts, hev]] at h
        cases h; rfl
      | null =>
        rw [show eval_program (.cons (.exprS e) .nil) env =
            .ok (some .null, env) by
          simp only [eval_program, evalStmts, hev]] at h
        cases h; rfl

/-- C10 witness: the environment-unchanged half applied to a concrete
conditional whose block contains a skipped `let`. -/
theorem c10_witness :
    eval_program (.cons (.exprS (.ifE (.boolean true)
        (.cons (.letS "a" (.intE 5)) (.cons (.exprS (.intE 7)) .nil))
        none)) .nil) [("b", .integer 1)] =
      .ok (some (.integer 7), [("b", .integer 1)]) ∧
    ((some (Object.integer 7), ([("b", Object.integer 1)] : Environment)) :
        Option Object × Environment).2 = [("b", Object.integer 1)] :=
  ⟨rfl, c10_block_let_skipped.2
    (.ifE (.boolean true)
      (.cons (.letS "a" (.intE 5)) (.cons (.exprS (.intE 7)) .nil)) none)
    [("b", .integer 1)] (some (.integer 7), [("b", .integer 1)]) rfl⟩
